import Mathlib

/-!
# GillesPy: model and simulation contract, formalised

A shallow embedding of the gillespy reaction-network data model, its
compilation pipeline, the direct-method SSA driver, the StochKit solver
adapter, and the package's install step, together with theorems settling
the specification's claims about them.

The visible repository holds only the packaging script (`setup.py`) and an
example model (`examples/tyson_oscillator.py`); the core module bodies are
not present.  Definitions for the core are therefore modelled from the
specification, as marked in their doc comments; `doEggInstall` is
translated from `setup.py`.
-/

namespace GillesPy

/-- Modelled from the spec: a parameter expression is "either a literal
numeric value or a symbolic expression referencing other parameter names"
(§3 Parameter); propensity expressions are "symbolic expression over
species populations, parameter names, and literals" (§3 Reaction).
Numerics are rationals. -/
inductive PExpr where
  | num (q : ℚ)
  | var (name : String)
  | add (a b : PExpr)
  | sub (a b : PExpr)
  | mul (a b : PExpr)
  | div (a b : PExpr)
deriving DecidableEq

/-- The names referenced by an expression. -/
def PExpr.vars : PExpr → List String
  | .num _ => []
  | .var x => [x]
  | .add a b | .sub a b | .mul a b | .div a b => a.vars ++ b.vars

/-- Evaluate an expression against an association list of resolved names
(missing names default to 0; callers guard resolvability). -/
def PExpr.evalWith (env : List (String × ℚ)) : PExpr → ℚ
  | .num q => q
  | .var x => match env.find? (fun p => p.1 == x) with
      | some p => p.2
      | none => 0
  | .add a b => a.evalWith env + b.evalWith env
  | .sub a b => a.evalWith env - b.evalWith env
  | .mul a b => a.evalWith env * b.evalWith env
  | .div a b => a.evalWith env / b.evalWith env

/-- Modelled from the spec: a species is a named non-negative integer
population counter with an initial value (§3 Species). -/
structure Species where
  name : String
  initial_value : ℕ
deriving DecidableEq

/-- Modelled from the spec: a parameter is a named expression, resolved
to a numeric value at compile time (§3 Parameter). -/
structure Parameter where
  name : String
  expression : PExpr
deriving DecidableEq

/-- Modelled from the spec: a reaction has reactant/product stoichiometry
(mappings species name → coefficient) and exactly one of a `rate`
(a parameter reference, mass-action kinetics) or a custom
`propensity_function` (§3 Reaction). -/
structure Reaction where
  name : String
  reactants : List (String × ℕ)
  products : List (String × ℕ)
  rate : Option String
  propensity_function : Option PExpr
deriving DecidableEq

/-- Compile-time (authoring) errors, per spec §4.2 and §7(a). -/
inductive CompileError where
  | UnresolvedParameterError (name : String)
  | CyclicParameterError
  | UnknownSymbolError (name : String)
  | DuplicateNameError (name : String)
  | MalformedReactionError (name : String)
deriving DecidableEq

/-- Simulation-time errors, per spec §4.3 and §7(b)(c). -/
inductive SimError where
  | InvalidModelError
  | InvalidConfigurationError
  | NonFiniteRateError
deriving DecidableEq

/-- A compiled propensity: either mass-action with a resolved rate
constant, or a custom expression over species indices (parameters were
substituted at compile time). -/
inductive CExpr where
  | num (q : ℚ)
  | pop (i : ℕ)
  | add (a b : CExpr)
  | sub (a b : CExpr)
  | mul (a b : CExpr)
  | div (a b : CExpr)
deriving DecidableEq

/-- Evaluate a compiled expression against the current population vector. -/
def CExpr.eval (pops : List ℤ) : CExpr → ℚ
  | .num q => q
  | .pop i => ((pops.getD i 0 : ℤ) : ℚ)
  | .add a b => a.eval pops + b.eval pops
  | .sub a b => a.eval pops - b.eval pops
  | .mul a b => a.eval pops * b.eval pops
  | .div a b => a.eval pops / b.eval pops

/-- The kind of a compiled reaction's propensity. -/
inductive PropKind where
  | massAction (k : ℚ)
  | custom (e : CExpr)
deriving DecidableEq

/-- Modelled from the spec: a compiled reaction uses stable species
indices ("species assigned stable integer indices at compile time", §9). -/
structure CompiledReaction where
  name : String
  reactants : List (ℕ × ℕ)
  products : List (ℕ × ℕ)
  prop : PropKind
deriving DecidableEq

instance : Inhabited CompiledReaction :=
  ⟨{ name := "", reactants := [], products := [], prop := .massAction 0 }⟩

/-- Modelled from the spec: the compiled, order-stable form of a model
(§4.2 step 3): volume, initial populations in species registration order,
and the compiled reaction list. -/
structure CompiledModel where
  volume : ℚ
  initPops : List ℕ
  reactions : List CompiledReaction
deriving DecidableEq

/-- Modelled from the spec: a model aggregates species, parameters and
reactions under a shared volume, and carries its compiled state, which any
structural mutation invalidates (§3 Model). -/
structure Model where
  name : String
  volume : ℚ := 1
  species : List Species := []
  parameters : List Parameter := []
  reactions : List Reaction := []
  compiled : Option CompiledModel := none
deriving DecidableEq

/-- The registered parameter names, in registration order. -/
def paramNames (m : Model) : List String :=
  m.parameters.map (·.name)

/-- The registered species names, in registration order. -/
def speciesNames (m : Model) : List String :=
  m.species.map (·.name)

/-- Modelled from the spec: `add_species` registers a species, failing
with `DuplicateNameError` on a name clash, and invalidates any compiled
state (§4.2, §3 Model lifecycle). -/
def addSpecies (m : Model) (s : Species) : Except CompileError Model :=
  if (speciesNames m).contains s.name then
    .error (.DuplicateNameError s.name)
  else
    .ok { m with species := m.species ++ [s], compiled := none }

/-- Modelled from the spec: `add_parameter`, as `add_species`. -/
def addParameter (m : Model) (p : Parameter) : Except CompileError Model :=
  if (paramNames m).contains p.name then
    .error (.DuplicateNameError p.name)
  else
    .ok { m with parameters := m.parameters ++ [p], compiled := none }

/-- Modelled from the spec: `add_reaction`, as `add_species`. -/
def addReaction (m : Model) (r : Reaction) : Except CompileError Model :=
  if (m.reactions.map (·.name)).contains r.name then
    .error (.DuplicateNameError r.name)
  else
    .ok { m with reactions := m.reactions ++ [r], compiled := none }

/-! ## Compilation (spec §4.2)

Modelled from the spec: `compile()` performs, in order, (1) resolution of
every parameter expression to a numeric value, failing with
`UnresolvedParameterError` on unknown references and
`CyclicParameterError` on a reference cycle, (2) parsing of each
reaction's propensity against the symbol table of species names and
resolved parameter values, failing with `UnknownSymbolError` on any name
not present, and (3) production of a compiled, order-stable reaction
list. -/

/-- The first name referenced by some parameter's expression that is not
a registered parameter name, scanning parameters in registration order. -/
def firstUnknownRef (names : List String) : List Parameter → Option String
  | [] => none
  | p :: ps =>
    match p.expression.vars.find? (fun x => !names.contains x) with
    | some x => some x
    | none => firstUnknownRef names ps

/-- A parameter is ready when all names it references are already
resolved. -/
def readyP (env : List (String × ℚ)) (p : Parameter) : Bool :=
  p.expression.vars.all (fun x => (env.map (·.1)).contains x)

/-- Modelled from the spec: iterated dependency-graph elimination.  Each
round resolves every pending parameter whose references are all resolved;
a round that resolves nothing while parameters remain pending is a
reference cycle (§4.2 step 1). -/
def resolveLoop : ℕ → List (String × ℚ) → List Parameter →
    Except CompileError (List (String × ℚ))
  | _, env, [] => .ok env
  | 0, _, _ :: _ => .error .CyclicParameterError
  | fuel + 1, env, p :: ps =>
    let pending := p :: ps
    let rdy := pending.filter (readyP env)
    let rest := pending.filter (fun q => !readyP env q)
    if rdy.isEmpty then .error .CyclicParameterError
    else resolveLoop fuel
      (env ++ rdy.map (fun q => (q.name, q.expression.evalWith env))) rest

/-- Resolve all of a model's parameters (spec §4.2 step 1). -/
def resolveParams (m : Model) : Except CompileError (List (String × ℚ)) :=
  match firstUnknownRef (paramNames m) m.parameters with
  | some x => .error (.UnresolvedParameterError x)
  | none => resolveLoop m.parameters.length [] m.parameters

/-- The registration-order index of a species name, if registered. -/
def speciesIndex (m : Model) (x : String) : Option ℕ :=
  m.species.findIdx? (fun s => s.name == x)

/-- Translate a propensity expression against the symbol table: species
names become population references, parameter names become their resolved
values; any other name is an `UnknownSymbolError` (spec §4.2 step 2). -/
def compileExpr (m : Model) (env : List (String × ℚ)) :
    PExpr → Except CompileError CExpr
  | .num q => .ok (.num q)
  | .var x =>
    match speciesIndex m x with
    | some i => .ok (.pop i)
    | none =>
      match env.find? (fun p => p.1 == x) with
      | some p => .ok (.num p.2)
      | none => .error (.UnknownSymbolError x)
  | .add a b => do .ok (.add (← compileExpr m env a) (← compileExpr m env b))
  | .sub a b => do .ok (.sub (← compileExpr m env a) (← compileExpr m env b))
  | .mul a b => do .ok (.mul (← compileExpr m env a) (← compileExpr m env b))
  | .div a b => do .ok (.div (← compileExpr m env a) (← compileExpr m env b))

/-- Map a stoichiometry list's species names to species indices, failing
with `UnknownSymbolError` on a name absent from the model. -/
def compileStoich (m : Model) :
    List (String × ℕ) → Except CompileError (List (ℕ × ℕ))
  | [] => .ok []
  | (x, n) :: rest =>
    match speciesIndex m x with
    | some i => do .ok ((i, n) :: (← compileStoich m rest))
    | none => .error (.UnknownSymbolError x)

/-- Compile one reaction: resolve its stoichiometry to species indices and
its propensity (mass-action rate parameter, or custom expression) against
the symbol table (spec §4.2 step 2, §3 Reaction). -/
def compileReaction (m : Model) (env : List (String × ℚ)) (r : Reaction) :
    Except CompileError CompiledReaction := do
  let reactants ← compileStoich m r.reactants
  let products ← compileStoich m r.products
  let prop ←
    match r.rate, r.propensity_function with
    | some k, none =>
      match env.find? (fun p => p.1 == k) with
      | some p => .ok (PropKind.massAction p.2)
      | none => .error (.UnknownSymbolError k)
    | none, some e => do .ok (PropKind.custom (← compileExpr m env e))
    | _, _ => .error (.MalformedReactionError r.name)
  .ok { name := r.name, reactants := reactants, products := products,
        prop := prop }

/-- Compile every reaction, in registration order; the first failing
reaction aborts compilation. -/
def compileReactions (m : Model) (env : List (String × ℚ)) :
    List Reaction → Except CompileError (List CompiledReaction)
  | [] => .ok []
  | r :: rs => do
    let cr ← compileReaction m env r
    let crs ← compileReactions m env rs
    .ok (cr :: crs)

/-- Modelled from the spec: `compile()` (§4.2).  Pure: on failure it
returns only the error, so the model's compiled state cannot be partially
mutated. -/
def compile (m : Model) : Except CompileError CompiledModel := do
  let env ← resolveParams m
  let crs ← compileReactions m env m.reactions
  .ok { volume := m.volume,
        initPops := m.species.map (·.initial_value),
        reactions := crs }

/-- The model a caller holds after attempting compilation: on success the
compiled state is stored, on failure the model is returned unchanged. -/
def compileUpdate (m : Model) : Model :=
  match compile m with
  | .ok cm => { m with compiled := some cm }
  | .error _ => m

/-- `a` references `b`: some registered parameter named `a` mentions `b`
in its expression. -/
def dependsOn (m : Model) (a b : String) : Prop :=
  ∃ p ∈ m.parameters, p.name = a ∧ b ∈ p.expression.vars

/-- The parameter reference graph has a cycle: a nonempty set of names in
which every member references another member.  (For a finite graph this
holds exactly when a directed reference cycle exists.) -/
def HasCycle (m : Model) : Prop :=
  ∃ S : List String, S ≠ [] ∧ ∀ a ∈ S, ∃ b ∈ S, dependsOn m a b

/-- A reaction is well-formed when it has exactly one of `rate` and
`propensity_function` (spec §3 Reaction invariant, validated at
construction). -/
def WellFormed (r : Reaction) : Prop :=
  (r.rate.isSome = true ∧ r.propensity_function = none) ∨
    (r.rate = none ∧ r.propensity_function.isSome = true)

/-- The reaction names a symbol absent from the symbol table of species
names and resolved parameter values: a reactant or product species not in
the model, a rate parameter not in the environment, or a propensity
variable in neither. -/
def UnknownSymbolIn (m : Model) (env : List (String × ℚ))
    (r : Reaction) : Prop :=
  (∃ pr ∈ r.reactants ++ r.products, speciesIndex m pr.1 = none) ∨
  (∃ k ∈ r.rate, env.find? (fun p => p.1 == k) = none) ∨
  (∃ e ∈ r.propensity_function, ∃ x ∈ e.vars,
    speciesIndex m x = none ∧ env.find? (fun p => p.1 == x) = none)

instance (m : Model) (a b : String) : Decidable (dependsOn m a b) :=
  decidable_of_iff (∃ p ∈ m.parameters, p.name = a ∧ b ∈ p.expression.vars)
    Iff.rfl

instance (r : Reaction) : Decidable (WellFormed r) :=
  decidable_of_iff ((r.rate.isSome = true ∧ r.propensity_function = none) ∨
    (r.rate = none ∧ r.propensity_function.isSome = true)) Iff.rfl

/-! ## Propensity evaluation (spec §4.2) -/

/-- The combinatorial count `C(pop, n)` of ways to choose `n` molecules
from a population of `pop`; 0 whenever `pop < n` (spec §4.2). -/
def binomCount (pop : ℤ) (n : ℕ) : ℕ :=
  if pop < (n : ℤ) then 0 else Nat.choose pop.toNat n

/-- The order of a mass-action reaction: the sum of its reactant
stoichiometric coefficients. -/
def orderOf (reactants : List (ℕ × ℕ)) : ℕ :=
  (reactants.map (·.2)).sum

/-- Modelled from the spec: the mass-action propensity
`k * volume^(1-order) * Π_i C(population(s_i), n_i)` (§4.2), accumulated
over the reactant list. -/
def massActionPropensity (k v : ℚ) (reactants : List (ℕ × ℕ))
    (pops : List ℤ) : ℚ :=
  reactants.foldl
    (fun acc p => acc * (binomCount (pops.getD p.1 0) p.2 : ℚ))
    (k * v ^ ((1 : ℤ) - (orderOf reactants : ℤ)))

/-- Total stoichiometric coefficient of species index `i` in a
stoichiometry list. -/
def sumCoeff (l : List (ℕ × ℕ)) (i : ℕ) : ℕ :=
  ((l.filter (fun p => p.1 == i)).map (·.2)).sum

/-- The reactants are sufficient: every species holds at least its total
reactant coefficient. -/
def sufficient (r : CompiledReaction) (pops : List ℤ) : Bool :=
  (List.range pops.length).all
    (fun i => decide ((sumCoeff r.reactants i : ℤ) ≤ pops.getD i 0))

/-- The raw propensity of a compiled reaction at a population vector. -/
def rawPropensity (v : ℚ) (pops : List ℤ) (r : CompiledReaction) : ℚ :=
  match r.prop with
  | .massAction k => massActionPropensity k v r.reactants pops
  | .custom e => e.eval pops

/-- Modelled from the spec: the propensity evaluator.  Per the species
invariant "a reaction that would drive any reactant below zero must not
fire" (§3), a reaction with insufficient reactants has propensity 0 — for
mass-action this coincides with the combinatorial formula, which already
vanishes there (§4.2). -/
def propensity (v : ℚ) (pops : List ℤ) (r : CompiledReaction) : ℚ :=
  if sufficient r pops then rawPropensity v pops r else 0

/-- Fire a reaction: decrement each species by its total reactant
coefficient and increment it by its total product coefficient, atomically
(spec §3 Reaction state-change contract). -/
def applyReaction (r : CompiledReaction) (pops : List ℤ) : List ℤ :=
  (List.range pops.length).map
    (fun i => pops.getD i 0 - (sumCoeff r.reactants i : ℤ)
      + (sumCoeff r.products i : ℤ))

/-! ## The SSA driver (spec §4.3) -/

/-- Modelled from the spec: the deterministic seeded random stream
("bit-for-bit reproducible", §4.3) — a linear congruential generator;
the spec fixes no particular generator. -/
def lcgM : ℕ := 2 ^ 31

/-- One step of the linear congruential generator. -/
def lcgNext (s : ℕ) : ℕ := (1103515245 * s + 12345) % lcgM

/-- Modelled from the spec: "seed derived deterministically per
trajectory index from the run seed" (§4.3). -/
def deriveSeed (seed idx : ℕ) : ℕ := lcgNext (seed + idx)

/-- A draw in `[0, 1)` from a generator state. -/
def uniform (s : ℕ) : ℚ := ((s % lcgM : ℕ) : ℚ) / (lcgM : ℚ)

/-- Modelled from the spec: the waiting-time draw
`τ ~ Exponential(rate = a_total)` (§4.3 step 2), rendered as a strictly
positive rational surrogate for the exponential inverse CDF, scaling
inversely with `a_total` and determined by the stream. -/
def tauDraw (s : ℕ) (aTot : ℚ) : ℚ :=
  (((s % lcgM : ℕ) : ℚ) + 1) / ((lcgM : ℚ) * aTot)

/-- Select the firing reaction: the least index whose cumulative
propensity exceeds the threshold ("ties broken by stable reaction
ordering", spec §4.3 step 2). -/
def pick : List ℚ → ℚ → ℕ
  | [], _ => 0
  | a :: as, u => if u < a then 0 else pick as (u - a) + 1

/-- A trajectory sample: a time paired with the population vector. -/
abbrev Sample := ℚ × List ℤ

/-- The held-state padding: when the loop stops before the end time, the
current state is recorded as holding until the end time (spec §4.3 steps
2, 3 and 5). -/
def pad (T t : ℚ) (pops : List ℤ) : List Sample :=
  if t < T then [(T, pops)] else []

/-- Modelled from the spec: the per-trajectory event loop of the
direct-method SSA (§4.3 steps 2–5), with an explicit event-count bound as
fuel.  Each iteration evaluates all propensities (a negative one is a
`NonFiniteRateError`, §4.3), terminates normally on zero total propensity
(absorbing state), draws `τ` and the firing reaction from the stream,
stops holding the state at the end time when `t + τ` exceeds it, and
otherwise fires the reaction and records the sample. -/
def runLoop (cm : CompiledModel) (T : ℚ) :
    ℕ → ℚ → List ℤ → ℕ → List Sample → Except SimError (List Sample)
  | 0, t, pops, _, acc => .ok (acc ++ pad T t pops)
  | fuel + 1, t, pops, rng, acc =>
    let props := cm.reactions.map (propensity cm.volume pops)
    if props.any (fun a => decide (a < 0)) then .error .NonFiniteRateError
    else
      let aTot := props.sum
      if aTot ≤ 0 then .ok (acc ++ pad T t pops)
      else
        let r1 := lcgNext rng
        let tau := tauDraw r1 aTot
        if T < t + tau then .ok (acc ++ pad T t pops)
        else
          let r2 := lcgNext r1
          let j := pick props (uniform r2 * aTot)
          let pops2 := applyReaction (cm.reactions.getD j default) pops
          runLoop cm T fuel (t + tau) pops2 r2 (acc ++ [(t + tau, pops2)])

/-- The event-count bound (spec §4.3: "an end time (or max event
count)"). -/
def maxEvents : ℕ := 1000000

/-- The initial population vector: a private copy of the model's initial
values (spec §4.3 step 1). -/
def initState (cm : CompiledModel) : List ℤ :=
  cm.initPops.map (fun (n : ℕ) => (n : ℤ))

/-- Run one trajectory from its derived seed: start at `t = 0` with the
initial populations and loop (spec §4.3). -/
def runTrajectory (cm : CompiledModel) (T : ℚ) (seed : ℕ) :
    Except SimError (List Sample) :=
  runLoop cm T maxEvents 0 (initState cm) seed [(0, initState cm)]

/-- Run the trajectories for the given indices, each from its own derived
seed (independent streams, spec §4.3). -/
def simTrajs (cm : CompiledModel) (T : ℚ) (seed : ℕ) :
    List ℕ → Except SimError (List (List Sample))
  | [] => .ok []
  | i :: rest => do
    let tr ← runTrajectory cm T (deriveSeed seed i)
    let trs ← simTrajs cm T seed rest
    .ok (tr :: trs)

/-- Modelled from the spec: `simulate(model, trajectory_count, end_time,
seed)` (§6), rejecting an invalid configuration (end time ≤ 0 or
trajectory count < 1) and an uncompiled or stale model before any
simulation work begins (§4.3 failure modes, §7(b)). -/
def simulate (m : Model) (endTime : ℚ) (count : ℕ) (seed : ℕ) :
    Except SimError (List (List Sample)) :=
  if endTime ≤ 0 ∨ count < 1 then .error .InvalidConfigurationError
  else
    match m.compiled with
    | none => .error .InvalidModelError
    | some cm => simTrajs cm endTime seed (List.range count)

/-! ## The StochKit solver adapter (spec §6, example caller
`examples/tyson_oscillator.py`) -/

/-- An error surfaced by the solver adapter: a compile-time or a
simulation-time failure. -/
inductive SolverError where
  | compileError (e : CompileError)
  | simError (e : SimError)
deriving DecidableEq

/-- One array row: the sample time followed by the species populations in
registration order (column 0 = time, columns 1..n = species). -/
def toRow (s : Sample) : List ℚ :=
  s.1 :: s.2.map (fun (z : ℤ) => (z : ℚ))

/-- Convert a trajectory to its rectangular time-by-species array. -/
def toArray (tr : List Sample) : List (List ℚ) :=
  tr.map toRow

namespace StochKitSolver

/-- Modelled from the spec: the solver entry point
`simulate(model, trajectory_count, end_time, seed=None)` (§6), callable
with only a model (the example calls
`gillespy.StochKitSolver.simulate(tyson_model)`); it compiles the model,
runs the engine, and converts each trajectory to a rectangular numeric
array (§6: "convertible to a rectangular time-by-species numeric
array"). -/
def simulate (model : Model) (t : ℚ := 20) (number_of_trajectories : ℕ := 1)
    (seed : ℕ := 0) : Except SolverError (List (List (List ℚ))) :=
  match compile model with
  | .error e => .error (.compileError e)
  | .ok cm =>
    match GillesPy.simulate { model with compiled := some cm } t
        number_of_trajectories seed with
    | .error e => .error (.simError e)
    | .ok trs => .ok (trs.map toArray)

end StochKitSolver

end GillesPy

namespace GillesPySetup

/-! ## The install step, translated from `setup.py` -/

/-- First generated line: `echo 'from .gillespy import *' >
gillespy/__init__.py` (setup.py line 9). -/
def baseLine1 : String :=
  "echo 'from .gillespy import *' > gillespy/__init__.py"

/-- Second generated line (setup.py line 10). -/
def baseLine2 : String :=
  "echo 'import os' >> gillespy/__init__.py"

/-- The two lines appended when `STOCHSS_HOME` is set (setup.py lines
12–13), with the path formatted in. -/
def stochssLines (h : String) : List String :=
  ["echo 'os.environ['PATH'] += os.pathsep + \"" ++ h ++
     "/StochKit/\"' >> gillespy/__init__.py",
   "echo 'os.environ['PATH'] += os.pathsep + \"" ++ h ++
     "/ode/\"' >> gillespy/__init__.py"]

/-- The line appended when `STOCHKIT_HOME` (line 16) or
`STOCHKIT_ODE_HOME` (line 19) is set, with the path formatted in. -/
def stochkitLine (h : String) : String :=
  "echo 'os.environ[\"PATH\"] += os.pathsep + \"" ++ h ++
    "\"' >> gillespy/__init__.py"

/-- The exception message raised when no install location is found
(setup.py line 22). -/
def notFoundMsg : String :=
  "StochKit not found, to simulate GillesPy models either StochKit or StochSS must to be installed"

/-- `Install.do_egg_install` from `setup.py`: build the shell command
that writes `gillespy/__init__.py`, appending path-extension lines for
each of `STOCHSS_HOME`, `STOCHKIT_HOME`, `STOCHKIT_ODE_HOME` that is set;
if none is set, raise an exception (and neither run the command nor call
the underlying egg install).  The environment is a lookup function; the
result on success is the list of generated command lines. -/
def doEggInstall (env : String → Option String) :
    Except String (List String) :=
  let cmd0 := [baseLine1, baseLine2]
  let step1 : List String × Bool :=
    match env "STOCHSS_HOME" with
    | some h => (cmd0 ++ stochssLines h, true)
    | none => (cmd0, false)
  let step2 : List String × Bool :=
    match env "STOCHKIT_HOME" with
    | some h => (step1.1 ++ [stochkitLine h], true)
    | none => step1
  let step3 : List String × Bool :=
    match env "STOCHKIT_ODE_HOME" with
    | some h => (step2.1 ++ [stochkitLine h], true)
    | none => step2
  if step3.2 = false then .error notFoundMsg
  else .ok step3.1

end GillesPySetup

namespace GillesPy

/-! ## Concrete example models (used as witnesses) -/

/-- A one-species irreversible decay model, the spec's concrete scenario
(§8): species `X` with initial population 2, mass-action reaction
`X → ∅` with rate parameter `k = 1`, volume 1. -/
def decayModel : Model :=
  { name := "decay",
    species := [{ name := "X", initial_value := 2 }],
    parameters := [{ name := "k", expression := .num 1 }],
    reactions := [{ name := "X decay", reactants := [("X", 1)],
                    products := [], rate := some "k",
                    propensity_function := none }] }

/-- The decay model with its compiled state stored. -/
def decayModelC : Model := compileUpdate decayModel

/-- A model whose only parameter references an unregistered name. -/
def unresolvedModel : Model :=
  { name := "bad-unresolved",
    parameters := [{ name := "a", expression := .var "b" }] }

/-- A model with a two-parameter reference cycle `a → b → a`. -/
def cyclicModel : Model :=
  { name := "bad-cyclic",
    parameters := [{ name := "a", expression := .var "b" },
                   { name := "b", expression := .var "a" }] }

/-- A model whose reaction references a species name absent from the
model. -/
def unknownSymModel : Model :=
  { name := "bad-unknown",
    species := [{ name := "X", initial_value := 1 }],
    parameters := [{ name := "k", expression := .num 1 }],
    reactions := [{ name := "r", reactants := [("Y", 1)], products := [],
                    rate := some "k", propensity_function := none }] }

end GillesPy

namespace GillesPy

/-! ## Propensity lemmas -/

theorem foldl_mul_map (f : α → ℚ) (l : List α) (init : ℚ) :
    l.foldl (fun acc x => acc * f x) init = init * (l.map f).prod := by
  induction l generalizing init with
  | nil => simp
  | cons a as ih => simp [List.foldl_cons, ih, mul_assoc]

theorem binomCount_eq_zero {pop : ℤ} {n : ℕ} (h : pop < (n : ℤ)) :
    binomCount pop n = 0 := by
  simp [binomCount, h]

theorem sumCoeff_nil (i : ℕ) : sumCoeff [] i = 0 := rfl

theorem filter_eq_nil_of_not_fst {l : List (ℕ × ℕ)} {i : ℕ}
    (h : ∀ p ∈ l, p.1 ≠ i) : l.filter (fun p => p.1 == i) = [] := by
  rw [List.filter_eq_nil_iff]
  intro p hp
  simpa using h p hp

theorem sumCoeff_eq_zero_of_not_mem {l : List (ℕ × ℕ)} {i : ℕ}
    (h : ∀ p ∈ l, p.1 ≠ i) : sumCoeff l i = 0 := by
  simp [sumCoeff, filter_eq_nil_of_not_fst h]

theorem sumCoeff_eq_of_mem {l : List (ℕ × ℕ)} (hnd : (l.map Prod.fst).Nodup)
    {i n : ℕ} (h : (i, n) ∈ l) : sumCoeff l i = n := by
  induction l with
  | nil => cases h
  | cons a as ih =>
    rw [List.map_cons, List.nodup_cons] at hnd
    rcases List.mem_cons.mp h with rfl | htail
    · have hnone : ∀ p ∈ as, p.1 ≠ (i, n).1 := by
        intro p hp hfst
        exact hnd.1 (hfst ▸ List.mem_map_of_mem Prod.fst hp)
      simp [sumCoeff, List.filter_cons, filter_eq_nil_of_not_fst hnone]
    · have hne : a.1 ≠ i := by
        intro hfst
        exact hnd.1 (hfst ▸ List.mem_map_of_mem Prod.fst htail)
      have := ih hnd.2 htail
      simpa [sumCoeff, List.filter_cons, hne] using this

theorem exists_mem_of_sumCoeff_pos {l : List (ℕ × ℕ)} {i : ℕ}
    (h : 0 < sumCoeff l i) : ∃ p ∈ l, p.1 = i := by
  by_contra hnot
  push_neg at hnot
  rw [sumCoeff_eq_zero_of_not_mem hnot] at h
  exact lt_irrefl 0 h

theorem massActionPropensity_eq (k v : ℚ) (reactants : List (ℕ × ℕ))
    (pops : List ℤ) :
    massActionPropensity k v reactants pops
      = k * v ^ ((1 : ℤ) - (orderOf reactants : ℤ))
        * ((reactants.map
            (fun p => (binomCount (pops.getD p.1 0) p.2 : ℚ))).prod) := by
  simp [massActionPropensity, foldl_mul_map]

theorem prod_eq_zero_of_insufficient {reactants : List (ℕ × ℕ)}
    {pops : List ℤ} {p : ℕ × ℕ} (hp : p ∈ reactants)
    (hlt : pops.getD p.1 0 < (p.2 : ℤ)) :
    ((reactants.map
      (fun q => (binomCount (pops.getD q.1 0) q.2 : ℚ))).prod) = 0 := by
  apply List.prod_eq_zero
  refine List.mem_map.mpr ⟨p, hp, ?_⟩
  rw [binomCount_eq_zero hlt]
  norm_num

/-- Claim C1, part of the development: for a mass-action compiled
reaction whose reactant keys are distinct (they come from a mapping) and
a non-negative population vector, the propensity evaluator returns
exactly `k * volume^(1-order) * Π_i C(population(s_i), n_i)`. -/
theorem propensity_massAction_eq (k v : ℚ) (nm : String)
    (reactants products : List (ℕ × ℕ)) (pops : List ℤ)
    (hnd : (reactants.map Prod.fst).Nodup)
    (hpops : ∀ x ∈ pops, 0 ≤ x) :
    propensity v pops
        { name := nm, reactants := reactants, products := products,
          prop := .massAction k }
      = k * v ^ ((1 : ℤ) - (orderOf reactants : ℤ))
        * ((reactants.map
            (fun p => (binomCount (pops.getD p.1 0) p.2 : ℚ))).prod) := by
  unfold propensity
  split
  · simp [rawPropensity, massActionPropensity_eq]
  · rename_i hins
    have hfail : ∃ i ∈ List.range pops.length,
        ¬ ((sumCoeff reactants i : ℤ) ≤ pops.getD i 0) := by
      by_contra hall
      push_neg at hall
      apply hins
      rw [sufficient]
      rw [List.all_eq_true]
      intro i hi
      exact decide_eq_true (hall i hi)
    obtain ⟨i, hi, hlt⟩ := hfail
    push_neg at hlt
    have hge : (0 : ℤ) ≤ pops.getD i 0 := by
      rcases Nat.lt_or_ge i pops.length with hlen | hlen
      · rw [List.getD_eq_getElem _ _ hlen]
        exact hpops _ (List.getElem_mem hlen)
      · rw [List.getD_eq_default _ _ hlen]
    have hpos : 0 < sumCoeff reactants i := by
      rcases Nat.eq_zero_or_pos (sumCoeff reactants i) with hz | hp
      · rw [hz] at hlt
        omega
      · exact hp
    obtain ⟨p, hp, hfst⟩ := exists_mem_of_sumCoeff_pos hpos
    obtain ⟨pi, pn⟩ := p
    cases hfst
    have hco : sumCoeff reactants pi = pn := sumCoeff_eq_of_mem hnd hp
    rw [hco] at hlt
    rw [prod_eq_zero_of_insufficient hp hlt]
    ring

/-! ## Selection and firing lemmas -/

theorem pick_spec : ∀ (props : List ℚ) (u : ℚ), 0 ≤ u → u < props.sum →
    pick props u < props.length ∧ 0 < props.getD (pick props u) 0 := by
  intro props
  induction props with
  | nil =>
    intro u h0 hlt
    simp at hlt
    exact absurd hlt (not_lt.mpr h0)
  | cons a as ih =>
    intro u h0 hlt
    rw [pick]
    split
    · rename_i hua
      exact ⟨Nat.succ_pos _, by simpa using lt_of_le_of_lt h0 hua⟩
    · rename_i hua
      push_neg at hua
      have h0' : 0 ≤ u - a := sub_nonneg.mpr hua
      have hlt' : u - a < as.sum := by
        rw [List.sum_cons] at hlt
        linarith
      obtain ⟨h1, h2⟩ := ih (u - a) h0' hlt'
      exact ⟨by simpa using Nat.succ_lt_succ h1, by simpa using h2⟩

theorem getD_map_of_lt (f : α → β) {l : List α} {j : ℕ} (h : j < l.length)
    (d : β) (d' : α) : (l.map f).getD j d = f (l.getD j d') := by
  rw [List.getD_eq_getElem _ _ (by simpa using h), List.getD_eq_getElem _ _ h]
  simp

theorem uniform_nonneg (s : ℕ) : 0 ≤ uniform s := by
  unfold uniform
  positivity

theorem uniform_lt_one (s : ℕ) : uniform s < 1 := by
  unfold uniform
  rw [div_lt_one (by norm_num [lcgM])]
  have : s % lcgM < lcgM := Nat.mod_lt s (by norm_num [lcgM])
  exact_mod_cast this

theorem tauDraw_pos {s : ℕ} {aTot : ℚ} (h : 0 < aTot) : 0 < tauDraw s aTot := by
  unfold tauDraw
  apply div_pos
  · have : (0 : ℚ) ≤ ((s % lcgM : ℕ) : ℚ) := Nat.cast_nonneg _
    linarith
  · have : (0 : ℚ) < (lcgM : ℚ) := by norm_num [lcgM]
    exact mul_pos this h

theorem mem_pad {T t : ℚ} {pops : List ℤ} {s : Sample}
    (h : s ∈ pad T t pops) : s = (T, pops) := by
  unfold pad at h
  split at h
  · simpa using h
  · cases h

theorem sufficient_le {r : CompiledReaction} {pops : List ℤ}
    (h : sufficient r pops = true) {i : ℕ} (hi : i < pops.length) :
    (sumCoeff r.reactants i : ℤ) ≤ pops.getD i 0 := by
  rw [sufficient, List.all_eq_true] at h
  have := h i (List.mem_range.mpr hi)
  exact of_decide_eq_true this

theorem propensity_pos_sufficient {v : ℚ} {pops : List ℤ}
    {r : CompiledReaction} (h : 0 < propensity v pops r) :
    sufficient r pops = true := by
  by_contra hins
  rw [propensity, if_neg hins] at h
  exact lt_irrefl 0 h

theorem applyReaction_length (r : CompiledReaction) (pops : List ℤ) :
    (applyReaction r pops).length = pops.length := by
  simp [applyReaction]

theorem applyReaction_nonneg {r : CompiledReaction} {pops : List ℤ}
    (hsuff : sufficient r pops = true) :
    ∀ x ∈ applyReaction r pops, 0 ≤ x := by
  intro x hx
  rw [applyReaction] at hx
  obtain ⟨i, hi, rfl⟩ := List.mem_map.mp hx
  rw [List.mem_range] at hi
  have h1 := sufficient_le hsuff hi
  have h2 : (0 : ℤ) ≤ (sumCoeff r.products i : ℤ) := Int.ofNat_nonneg _
  omega

/-! ## The population non-negativity invariant (spec §3, §4.3) -/

theorem runLoop_nonneg (cm : CompiledModel) (T : ℚ) :
    ∀ (fuel : ℕ) (t : ℚ) (pops : List ℤ) (rng : ℕ) (acc res : List Sample),
    (∀ s ∈ acc, ∀ x ∈ s.2, 0 ≤ x) → (∀ x ∈ pops, 0 ≤ x) →
    runLoop cm T fuel t pops rng acc = .ok res →
    ∀ s ∈ res, ∀ x ∈ s.2, 0 ≤ x := by
  intro fuel
  induction fuel with
  | zero =>
    intro t pops rng acc res hacc hpops h s hs
    rw [runLoop] at h
    cases h
    rcases List.mem_append.mp hs with hmem | hmem
    · exact hacc s hmem
    · cases mem_pad hmem
      exact hpops
  | succ n ih =>
    intro t pops rng acc res hacc hpops h s hs
    simp only [runLoop] at h
    split at h
    · cases h
    · split at h
      · cases h
        rcases List.mem_append.mp hs with hmem | hmem
        · exact hacc s hmem
        · cases mem_pad hmem
          exact hpops
      · split at h
        · cases h
          rcases List.mem_append.mp hs with hmem | hmem
          · exact hacc s hmem
          · cases mem_pad hmem
            exact hpops
        · rename_i hneg hpos htime
          push_neg at hpos
          -- the chosen reaction has positive propensity, hence sufficient
          set props := cm.reactions.map (propensity cm.volume pops) with hprops
          have hthr0 : 0 ≤ uniform (lcgNext (lcgNext rng)) * props.sum :=
            mul_nonneg (uniform_nonneg _) (le_of_lt hpos)
          have hthr1 : uniform (lcgNext (lcgNext rng)) * props.sum
              < props.sum := by
            have := uniform_lt_one (lcgNext (lcgNext rng))
            calc uniform (lcgNext (lcgNext rng)) * props.sum
                < 1 * props.sum := by
                  exact mul_lt_mul_of_pos_right this hpos
              _ = props.sum := one_mul _
          obtain ⟨hjlen, hjpos⟩ := pick_spec props _ hthr0 hthr1
          have hjlen' : pick props (uniform (lcgNext (lcgNext rng))
              * props.sum) < cm.reactions.length := by
            simpa [hprops] using hjlen
          rw [getD_map_of_lt (propensity cm.volume pops) hjlen' 0 default]
            at hjpos
          have hsuff := propensity_pos_sufficient hjpos
          have hpops2 := applyReaction_nonneg hsuff
          refine ih _ _ _ _ _ ?_ hpops2 h s hs
          intro s' hs' x hx
          rcases List.mem_append.mp hs' with hmem | hmem
          · exact hacc s' hmem x hx
          · rw [List.mem_singleton] at hmem
            subst hmem
            exact hpops2 x hx

/-- Claim C1: for every compiled mass-action reaction with rate constant
`k`, reactant multiset `{s_i : n_i}` with `order = Σ n_i`, and every
(non-negative) population vector, the propensity evaluator returns
`k * volume^(1-order) * Π_i C(population(s_i), n_i)`, where `C(pop, n)`
is the binomial count of ways to choose `n` molecules from `pop` and
equals 0 whenever `pop < n`; in particular the propensity is 0 whenever
any reactant population is below its stoichiometric coefficient. -/
theorem claim_C1_massAction_propensity (k v : ℚ) (nm : String)
    (reactants products : List (ℕ × ℕ)) (pops : List ℤ)
    (hnd : (reactants.map Prod.fst).Nodup)
    (hpops : ∀ x ∈ pops, 0 ≤ x) :
    propensity v pops
        { name := nm, reactants := reactants, products := products,
          prop := .massAction k }
      = k * v ^ ((1 : ℤ) - (orderOf reactants : ℤ))
        * ((reactants.map
            (fun p => (binomCount (pops.getD p.1 0) p.2 : ℚ))).prod)
    ∧ (∀ (pop : ℤ) (n : ℕ), pop < (n : ℤ) → binomCount pop n = 0)
    ∧ (∀ p ∈ reactants, pops.getD p.1 0 < (p.2 : ℤ) →
        propensity v pops
          { name := nm, reactants := reactants, products := products,
            prop := .massAction k } = 0) := by
  refine ⟨propensity_massAction_eq k v nm reactants products pops hnd hpops,
    fun pop n h => binomCount_eq_zero h, fun p hp hlt => ?_⟩
  rw [propensity_massAction_eq k v nm reactants products pops hnd hpops,
    prod_eq_zero_of_insufficient hp hlt]
  ring

/-- Witness for C1: a second-order reaction `2·X → ∅` with `k = 3`,
`volume = 2` and population 5 has propensity
`3 * 2⁻¹ * C(5,2) = 15`, and its hypotheses hold at this input. -/
theorem claim_C1_massAction_propensity_witness :
    propensity 2 [(5 : ℤ)]
        { name := "r", reactants := [(0, 2)], products := [],
          prop := .massAction 3 }
      = 15 :=
  ((claim_C1_massAction_propensity 3 2 "r" [(0, 2)] [] [(5 : ℤ)]
      (by decide) (by decide)).1).trans
    (by norm_num [orderOf, binomCount, Nat.choose])

theorem initState_nonneg (cm : CompiledModel) : ∀ x ∈ initState cm, 0 ≤ x := by
  intro x hx
  rw [initState] at hx
  obtain ⟨k, hk, hke⟩ := List.mem_map.mp hx
  subst hke
  exact Int.natCast_nonneg k

theorem simTrajs_mem (cm : CompiledModel) (T : ℚ) (seed : ℕ) :
    ∀ (idxs : List ℕ) (trs : List (List Sample)),
    simTrajs cm T seed idxs = .ok trs →
    ∀ tr ∈ trs, ∃ i ∈ idxs, runTrajectory cm T (deriveSeed seed i) = .ok tr := by
  intro idxs
  induction idxs with
  | nil =>
    intro trs h tr htr
    rw [simTrajs] at h
    cases h
    cases htr
  | cons i rest ih =>
    intro trs h tr htr
    rw [simTrajs] at h
    cases hrt : runTrajectory cm T (deriveSeed seed i) with
    | error e => rw [hrt] at h; cases h
    | ok tr0 =>
      rw [hrt] at h
      cases hrest : simTrajs cm T seed rest with
      | error e => rw [hrest] at h; cases h
      | ok trs0 =>
        rw [hrest] at h
        cases h
        rcases List.mem_cons.mp htr with rfl | hmem
        · exact ⟨i, List.mem_cons_self i rest, hrt⟩
        · obtain ⟨j, hj, hrun⟩ := ih trs0 hrest tr hmem
          exact ⟨j, List.mem_cons_of_mem i hj, hrun⟩

/-! ## Trajectory shape: start, ordering, end (spec §4.3 steps 1 and 5) -/

theorem sample_lt_trans : Transitive (fun a b : Sample => a.1 < b.1) :=
  fun _ _ _ h1 h2 => lt_trans h1 h2

theorem exit_shape {T t : ℚ} {pops : List ℤ} {acc : List Sample}
    (hsort : List.Chain' (fun a b : Sample => a.1 < b.1) acc)
    (hlast : acc.getLast?.map Prod.fst = some t) (hle : t ≤ T) :
    List.Chain' (fun a b : Sample => a.1 < b.1) (acc ++ pad T t pops) ∧
      (acc ++ pad T t pops).getLast?.map Prod.fst = some T ∧
      (acc ++ pad T t pops).head? = acc.head? := by
  have hne : acc ≠ [] := by
    intro hnil
    rw [hnil] at hlast
    simp at hlast
  by_cases ht : t < T
  · rw [pad, if_pos ht]
    refine ⟨List.chain'_append.mpr ⟨hsort, List.chain'_singleton _, ?_⟩, ?_, ?_⟩
    · intro x hx y hy
      rw [List.head?_cons, Option.mem_some_iff] at hy
      subst hy
      have : x.1 = t := by
        rw [Option.mem_def] at hx
        rw [hx] at hlast
        simpa using hlast
      rw [this]
      exact ht
    · rw [List.getLast?_append_of_ne_nil _ (by simp)]
      simp
    · exact List.head?_append_of_ne_nil _ hne
  · have hteq : t = T := le_antisymm hle (not_lt.mp ht)
    rw [pad, if_neg ht, List.append_nil]
    exact ⟨hsort, by rw [hlast, hteq], rfl⟩

theorem runLoop_sorted (cm : CompiledModel) (T : ℚ) :
    ∀ (fuel : ℕ) (t : ℚ) (pops : List ℤ) (rng : ℕ) (acc res : List Sample),
    List.Chain' (fun a b : Sample => a.1 < b.1) acc →
    acc.getLast?.map Prod.fst = some t →
    t ≤ T →
    runLoop cm T fuel t pops rng acc = .ok res →
    List.Chain' (fun a b : Sample => a.1 < b.1) res ∧
      res.getLast?.map Prod.fst = some T ∧ res.head? = acc.head? := by
  intro fuel
  induction fuel with
  | zero =>
    intro t pops rng acc res hsort hlast hle h
    rw [runLoop] at h
    cases h
    exact exit_shape hsort hlast hle
  | succ n ih =>
    intro t pops rng acc res hsort hlast hle h
    have hne : acc ≠ [] := by
      intro hnil
      rw [hnil] at hlast
      simp at hlast
    simp only [runLoop] at h
    split at h
    · cases h
    · split at h
      · cases h
        exact exit_shape hsort hlast hle
      · split at h
        · cases h
          exact exit_shape hsort hlast hle
        · rename_i hneg hpos htime
          push_neg at hpos
          push_neg at htime
          have htau : 0 < tauDraw (lcgNext rng)
              (List.map (propensity cm.volume pops) cm.reactions).sum :=
            tauDraw_pos hpos
          have hsort' : List.Chain' (fun a b : Sample => a.1 < b.1)
              (acc ++ [(t + tauDraw (lcgNext rng)
                (List.map (propensity cm.volume pops) cm.reactions).sum,
                applyReaction
                  (cm.reactions.getD
                    (pick (List.map (propensity cm.volume pops) cm.reactions)
                      (uniform (lcgNext (lcgNext rng)) *
                        (List.map (propensity cm.volume pops)
                          cm.reactions).sum))
                    default) pops)]) := by
            refine List.chain'_append.mpr
              ⟨hsort, List.chain'_singleton _, ?_⟩
            intro x hx y hy
            rw [List.head?_cons, Option.mem_some_iff] at hy
            subst hy
            have : x.1 = t := by
              rw [Option.mem_def] at hx
              rw [hx] at hlast
              simpa using hlast
            rw [this]
            simpa using htau
          obtain ⟨h1, h2, h3⟩ := ih _ _ _ _ _ hsort'
            (by rw [List.getLast?_append_of_ne_nil _ (by simp)]; simp)
            htime h
          refine ⟨h1, h2, ?_⟩
          rw [h3]
          exact List.head?_append_of_ne_nil _ hne

theorem compile_ok_fields {m : Model} {cm : CompiledModel}
    (hc : compile m = .ok cm) :
    cm.volume = m.volume ∧
      cm.initPops = m.species.map (·.initial_value) := by
  rw [compile] at hc
  cases hres : resolveParams m with
  | error e => rw [hres] at hc; cases hc
  | ok env =>
    rw [hres] at hc
    simp only [bind, Except.bind] at hc
    cases hcr : compileReactions m env m.reactions with
    | error e => rw [hcr] at hc; cases hc
    | ok crs =>
      rw [hcr] at hc
      cases hc
      exact ⟨rfl, rfl⟩

/-- Claim C3: for every compiled model and end time `T > 0`, `simulate`
with trajectory count 1 produces a single trajectory whose samples are
ordered by strictly increasing time, whose first sample is at time 0 with
the model's initial populations, and whose last sample's time equals `T`
(padded with a held-state sample when the last event precedes `T`). -/
theorem claim_C3_trajectory_shape (m : Model) (cm : CompiledModel)
    (T : ℚ) (seed : ℕ) (l : List (List Sample))
    (hc : compile m = .ok cm) (hT : 0 < T)
    (h : simulate { m with compiled := some cm } T 1 seed = .ok l) :
    ∃ tr, l = [tr]
      ∧ tr.head? = some (0, m.species.map (fun s => (s.initial_value : ℤ)))
      ∧ List.Chain' (fun a b : Sample => a.1 < b.1) tr
      ∧ tr.getLast?.map Prod.fst = some T := by
  have hcond : ¬ (T ≤ 0 ∨ 1 < 1) := by
    push_neg
    exact ⟨hT, le_refl 1⟩
  rw [simulate, if_neg hcond] at h
  have hrange : List.range 1 = [0] := rfl
  simp only [hrange] at h
  rw [simTrajs] at h
  cases hrt : runTrajectory cm T (deriveSeed seed 0) with
  | error e => rw [hrt] at h; cases h
  | ok tr =>
    rw [hrt] at h
    rw [simTrajs] at h
    simp only [bind, Except.bind] at h
    cases h
    refine ⟨tr, rfl, ?_⟩
    have hsing : List.Chain' (fun a b : Sample => a.1 < b.1)
        [((0 : ℚ), initState cm)] := List.chain'_singleton _
    have hlast : ([((0 : ℚ), initState cm)].getLast?).map Prod.fst
        = some 0 := rfl
    obtain ⟨h1, h2, h3⟩ := runLoop_sorted cm T maxEvents 0 (initState cm)
      (deriveSeed seed 0) [((0 : ℚ), initState cm)] tr hsing hlast
      (le_of_lt hT) hrt
    refine ⟨?_, h1, h2⟩
    rw [h3]
    obtain ⟨-, hinit⟩ := compile_ok_fields hc
    have : initState cm = m.species.map (fun s => (s.initial_value : ℤ)) := by
      rw [initState, hinit, List.map_map]
      rfl
    rw [this]
    rfl

set_option allowUnsafeReducibility true in
attribute [local semireducible] Rat.mul Rat.add Rat.sub Rat.inv in
/-- Witness for C3: the decay model simulated to `T = 5` with seed 42
yields one trajectory starting at `(0, [2])`, strictly increasing in
time, ending at time 5. -/
theorem claim_C3_trajectory_shape_witness :
    ∃ tr, (simulate decayModelC 5 1 42).toOption.getD [] = [tr]
      ∧ tr.head? = some (0, decayModel.species.map
          (fun s => (s.initial_value : ℤ)))
      ∧ List.Chain' (fun a b : Sample => a.1 < b.1) tr
      ∧ tr.getLast?.map Prod.fst = some 5 :=
  claim_C3_trajectory_shape decayModel
    ((compile decayModel).toOption.getD ⟨1, [], []⟩) 5 42 _
    (by rfl) (by norm_num) (by rfl)

/-- Claim C2: for every model, every simulated trajectory, and every
sample in it, every species' population count is non-negative: no
reaction firing ever drives any species' population below zero (a
reaction whose reactants are insufficient never fires). -/
theorem claim_C2_populations_nonneg (m : Model) (T : ℚ) (n seed : ℕ)
    (trs : List (List Sample)) (h : simulate m T n seed = .ok trs) :
    ∀ tr ∈ trs, ∀ s ∈ tr, ∀ x ∈ s.2, 0 ≤ x := by
  intro tr htr s hs x hx
  rw [simulate] at h
  split at h
  · cases h
  · split at h
    · cases h
    · rename_i cm hcm
      obtain ⟨i, _, hrun⟩ := simTrajs_mem cm T seed (List.range n) trs h tr htr
      rw [runTrajectory] at hrun
      refine runLoop_nonneg cm T maxEvents 0 (initState cm) _ _ tr ?_
        (initState_nonneg cm) hrun s hs x hx
      intro s' hs' y hy
      rw [List.mem_singleton] at hs'
      subst hs'
      exact initState_nonneg cm y hy

set_option allowUnsafeReducibility true in
attribute [local semireducible] Rat.mul Rat.add Rat.sub Rat.inv in
/-- Witness for C2: in the decay model simulated to time 5 with seed 42,
the population recorded in the second sample of the first trajectory is
non-negative. -/
theorem claim_C2_populations_nonneg_witness :
    0 ≤ ((((simulate decayModelC 5 1 42).toOption.getD []).getD 0
      []).getD 1 ((0 : ℚ), ([] : List ℤ))).2.getD 0 0 :=
  claim_C2_populations_nonneg decayModelC 5 1 42
    ((simulate decayModelC 5 1 42).toOption.getD []) (by rfl)
    (((simulate decayModelC 5 1 42).toOption.getD []).getD 0 [])
    (by decide)
    ((((simulate decayModelC 5 1 42).toOption.getD []).getD 0
      []).getD 1 ((0 : ℚ), ([] : List ℤ)))
    (by decide)
    (((((simulate decayModelC 5 1 42).toOption.getD []).getD 0
      []).getD 1 ((0 : ℚ), ([] : List ℤ))).2.getD 0 0)
    (by decide)


/-! ## Absorbing states, determinism, independence (spec §4.3) -/

/-- Claim C4: when the total propensity is 0 at some step, the engine
does not raise an error: it records the current state as held until the
end time and terminates that trajectory's event loop normally (a valid
absorbing-state outcome). -/
theorem claim_C4_absorbing_state (cm : CompiledModel) (T : ℚ) (fuel : ℕ)
    (t : ℚ) (pops : List ℤ) (rng : ℕ) (acc : List Sample)
    (h0 : ∀ a ∈ cm.reactions.map (propensity cm.volume pops), 0 ≤ a)
    (hsum : (cm.reactions.map (propensity cm.volume pops)).sum = 0) :
    runLoop cm T (fuel + 1) t pops rng acc = .ok (acc ++ pad T t pops) := by
  have hany : (cm.reactions.map (propensity cm.volume pops)).any
      (fun a => decide (a < 0)) = false := by
    rw [List.any_eq_false]
    intro a ha
    simp only [decide_eq_true_eq]
    exact not_lt.mpr (h0 a ha)
  simp only [runLoop, hany, Bool.false_eq_true, if_false, hsum, le_refl,
    if_true]

set_option allowUnsafeReducibility true in
attribute [local semireducible] Rat.mul Rat.add Rat.sub Rat.inv in
/-- Witness for C4: a decay reaction at population 0 (absorbing state)
freezes the trajectory: the loop returns the held state at the end time
without an error. -/
theorem claim_C4_absorbing_state_witness :
    runLoop ⟨1, [0], [⟨"d", [(0, 1)], [], .massAction 1⟩]⟩ 5 1 0 [(0 : ℤ)]
        7 [((0 : ℚ), [(0 : ℤ)])]
      = .ok ([((0 : ℚ), [(0 : ℤ)])] ++ pad 5 0 [(0 : ℤ)]) :=
  claim_C4_absorbing_state ⟨1, [0], [⟨"d", [(0, 1)], [], .massAction 1⟩]⟩
    5 0 0 [(0 : ℤ)] 7 [((0 : ℚ), [(0 : ℤ)])]
    (by decide) (by decide)

/-- Claim C5: two `simulate` calls with an identical model, end time,
trajectory count, and seed produce identical trajectories — the engine is
a pure function of those four inputs, with no hidden state. -/
theorem claim_C5_deterministic (m1 m2 : Model) (T1 T2 : ℚ)
    (n1 n2 s1 s2 : ℕ) (hm : m1 = m2) (hT : T1 = T2) (hn : n1 = n2)
    (hs : s1 = s2) : simulate m1 T1 n1 s1 = simulate m2 T2 n2 s2 := by
  subst hm
  subst hT
  subst hn
  subst hs
  rfl

/-- Witness for C5: two identically-configured runs of the decay model
coincide. -/
theorem claim_C5_deterministic_witness :
    simulate decayModelC 5 2 42 = simulate decayModelC 5 2 42 :=
  claim_C5_deterministic decayModelC decayModelC 5 5 2 2 42 42
    rfl rfl rfl rfl

theorem simTrajs_length (cm : CompiledModel) (T : ℚ) (seed : ℕ) :
    ∀ (idxs : List ℕ) (trs : List (List Sample)),
    simTrajs cm T seed idxs = .ok trs → trs.length = idxs.length := by
  intro idxs
  induction idxs with
  | nil =>
    intro trs h
    rw [simTrajs] at h
    cases h
    rfl
  | cons i rest ih =>
    intro trs h
    rw [simTrajs] at h
    cases hrt : runTrajectory cm T (deriveSeed seed i) with
    | error e => rw [hrt] at h; cases h
    | ok tr0 =>
      rw [hrt] at h
      cases hrest : simTrajs cm T seed rest with
      | error e => rw [hrest] at h; cases h
      | ok trs0 =>
        rw [hrest] at h
        simp only [bind, Except.bind] at h
        cases h
        simp [ih trs0 hrest]

theorem simTrajs_getElem (cm : CompiledModel) (T : ℚ) (seed : ℕ) :
    ∀ (idxs : List ℕ) (trs : List (List Sample)),
    simTrajs cm T seed idxs = .ok trs →
    ∀ j : ℕ, trs[j]? = (idxs[j]?).bind
      (fun i => (runTrajectory cm T (deriveSeed seed i)).toOption) := by
  intro idxs
  induction idxs with
  | nil =>
    intro trs h j
    rw [simTrajs] at h
    cases h
    simp
  | cons i rest ih =>
    intro trs h j
    rw [simTrajs] at h
    cases hrt : runTrajectory cm T (deriveSeed seed i) with
    | error e => rw [hrt] at h; cases h
    | ok tr0 =>
      rw [hrt] at h
      cases hrest : simTrajs cm T seed rest with
      | error e => rw [hrest] at h; cases h
      | ok trs0 =>
        rw [hrest] at h
        simp only [bind, Except.bind] at h
        cases h
        cases j with
        | zero => simp [hrt, Except.toOption]
        | succ j0 => simpa using ih trs0 hrest j0

/-- Claim C6: for a fixed seed, model and end time, the trajectory at any
index `i` is identical across two calls whose trajectory counts both
exceed `i`: each trajectory's stream is derived from the run seed and its
own index, so increasing the trajectory count never changes
earlier-indexed trajectories. -/
theorem claim_C6_trajectory_independence (m : Model) (T : ℚ)
    (seed i n1 n2 : ℕ) (l1 l2 : List (List Sample))
    (hi : i < n1) (hn : n1 ≤ n2)
    (h1 : simulate m T n1 seed = .ok l1)
    (h2 : simulate m T n2 seed = .ok l2) :
    l1[i]? = l2[i]? ∧ (l1[i]?).isSome = true := by
  rw [simulate] at h1 h2
  split at h1
  · cases h1
  · split at h2
    · cases h2
    · cases hcm : m.compiled with
      | none =>
        rw [hcm] at h1
        cases h1
      | some cm =>
        rw [hcm] at h1 h2
        have e1 := simTrajs_getElem cm T seed (List.range n1) l1 h1 i
        have e2 := simTrajs_getElem cm T seed (List.range n2) l2 h2 i
        rw [List.getElem?_range hi] at e1
        rw [List.getElem?_range (lt_of_lt_of_le hi hn)] at e2
        refine ⟨e1.trans e2.symm, ?_⟩
        have hlen := simTrajs_length cm T seed (List.range n1) l1 h1
        rw [List.length_range] at hlen
        rw [List.getElem?_eq_getElem (by rw [hlen]; exact hi)]
        rfl

set_option allowUnsafeReducibility true in
attribute [local semireducible] Rat.mul Rat.add Rat.sub Rat.inv in
/-- Witness for C6: the first trajectory of a one-trajectory run and of a
two-trajectory run of the decay model coincide. -/
theorem claim_C6_trajectory_independence_witness :
    ((simulate decayModelC 5 1 42).toOption.getD [])[0]?
        = ((simulate decayModelC 5 2 42).toOption.getD [])[0]?
      ∧ (((simulate decayModelC 5 1 42).toOption.getD [])[0]?).isSome
        = true :=
  claim_C6_trajectory_independence decayModelC 5 42 0 1 2 _ _
    (by decide) (by decide) (by rfl) (by rfl)

/-! ## Configuration validation (spec §4.3 failure modes, §7(b)) -/

/-- Claim C8: `simulate` with end time ≤ 0 or trajectory count < 1 fails
with `InvalidConfigurationError`, and `simulate` on a model whose
compiled state is absent (never compiled, or invalidated by mutation)
fails with `InvalidModelError`; in each case the result is only the
error, produced before any simulation work. -/
theorem claim_C8_simulate_validation (m : Model) (T : ℚ) (n seed : ℕ) :
    ((T ≤ 0 ∨ n < 1) →
      simulate m T n seed = .error .InvalidConfigurationError)
    ∧ (0 < T → 1 ≤ n → m.compiled = none →
      simulate m T n seed = .error .InvalidModelError) := by
  constructor
  · intro h
    rw [simulate, if_pos h]
  · intro hT hn hc
    rw [simulate, if_neg (by push_neg; exact ⟨hT, hn⟩), hc]

/-- Witness for C8: end time 0 is rejected as configuration error on a
compiled model; an uncompiled model is rejected as model error. -/
theorem claim_C8_simulate_validation_witness :
    simulate decayModelC 0 1 42 = .error .InvalidConfigurationError
    ∧ simulate decayModel 5 1 42 = .error .InvalidModelError :=
  ⟨(claim_C8_simulate_validation decayModelC 0 1 42).1 (Or.inl le_rfl),
   (claim_C8_simulate_validation decayModel 5 1 42).2 (by norm_num)
     le_rfl rfl⟩

end GillesPy

namespace GillesPySetup

/-- Claim C9: the install step raises an exception — performing neither
the generated shell commands nor the underlying egg install — exactly
when none of `STOCHSS_HOME`, `STOCHKIT_HOME`, `STOCHKIT_ODE_HOME` is set;
when at least one is set it appends the corresponding path-extension
lines to the generated `gillespy/__init__.py` commands and proceeds. -/
theorem claim_C9_do_egg_install (env : String → Option String) :
    (doEggInstall env = .error notFoundMsg ↔
      env "STOCHSS_HOME" = none ∧ env "STOCHKIT_HOME" = none ∧
        env "STOCHKIT_ODE_HOME" = none)
    ∧ ((env "STOCHSS_HOME" ≠ none ∨ env "STOCHKIT_HOME" ≠ none ∨
        env "STOCHKIT_ODE_HOME" ≠ none) →
      doEggInstall env = .ok ([baseLine1, baseLine2]
        ++ (match env "STOCHSS_HOME" with
            | some h => stochssLines h
            | none => [])
        ++ (match env "STOCHKIT_HOME" with
            | some h => [stochkitLine h]
            | none => [])
        ++ (match env "STOCHKIT_ODE_HOME" with
            | some h => [stochkitLine h]
            | none => []))) := by
  cases h1 : env "STOCHSS_HOME" <;>
    cases h2 : env "STOCHKIT_HOME" <;>
      cases h3 : env "STOCHKIT_ODE_HOME" <;>
        simp [doEggInstall, h1, h2, h3]

/-- Witness for C9: with only `STOCHKIT_HOME` set, the install proceeds
and appends exactly the `STOCHKIT_HOME` path-extension line. -/
theorem claim_C9_do_egg_install_witness :
    doEggInstall
        (fun v => if v = "STOCHKIT_HOME" then some "/opt/sk" else none)
      = .ok [baseLine1, baseLine2, stochkitLine "/opt/sk"] :=
  ((claim_C9_do_egg_install
      (fun v => if v = "STOCHKIT_HOME" then some "/opt/sk" else none)).2
    (Or.inr (Or.inl (by decide)))).trans (by rfl)

end GillesPySetup

namespace GillesPy

/-! ## Solver adapter array shape (claim C10) -/

theorem runLoop_pops_length (cm : CompiledModel) (T : ℚ) (L : ℕ) :
    ∀ (fuel : ℕ) (t : ℚ) (pops : List ℤ) (rng : ℕ) (acc res : List Sample),
    (∀ s ∈ acc, s.2.length = L) → pops.length = L →
    runLoop cm T fuel t pops rng acc = .ok res →
    ∀ s ∈ res, s.2.length = L := by
  intro fuel
  induction fuel with
  | zero =>
    intro t pops rng acc res hacc hlen h s hs
    rw [runLoop] at h
    cases h
    rcases List.mem_append.mp hs with hmem | hmem
    · exact hacc s hmem
    · cases mem_pad hmem
      exact hlen
  | succ n ih =>
    intro t pops rng acc res hacc hlen h s hs
    simp only [runLoop] at h
    split at h
    · cases h
    · split at h
      · cases h
        rcases List.mem_append.mp hs with hmem | hmem
        · exact hacc s hmem
        · cases mem_pad hmem
          exact hlen
      · split at h
        · cases h
          rcases List.mem_append.mp hs with hmem | hmem
          · exact hacc s hmem
          · cases mem_pad hmem
            exact hlen
        · have hlen2 : (applyReaction
              (cm.reactions.getD
                (pick (List.map (propensity cm.volume pops) cm.reactions)
                  (uniform (lcgNext (lcgNext rng)) *
                    (List.map (propensity cm.volume pops)
                      cm.reactions).sum))
                default) pops).length = L := by
            rw [applyReaction_length]
            exact hlen
          refine ih _ _ _ _ _ ?_ hlen2 h s hs
          intro s2 hs2
          rcases List.mem_append.mp hs2 with hmem | hmem
          · exact hacc s2 hmem
          · rw [List.mem_singleton] at hmem
            subst hmem
            exact hlen2

/-- Claim C10: `StochKitSolver.simulate` is callable with only a model
argument (end time, trajectory count and seed default), and each returned
trajectory is a rectangular numeric array in which column 0 holds the
sample times and columns 1..n hold the species populations in the model's
species registration order. -/
theorem claim_C10_solver_arrays (model : Model) (t : ℚ) (n seed : ℕ)
    (arrs : List (List (List ℚ)))
    (h : StochKitSolver.simulate model t n seed = .ok arrs) :
    (StochKitSolver.simulate model = StochKitSolver.simulate model 20 1 0)
    ∧ ∃ cm trs, compile model = .ok cm
      ∧ simulate { model with compiled := some cm } t n seed = .ok trs
      ∧ arrs = trs.map toArray
      ∧ ∀ arr ∈ arrs, ∀ row ∈ arr,
          row.length = model.species.length + 1
          ∧ ∃ s : Sample, row = s.1 :: s.2.map (fun (z : ℤ) => (z : ℚ)) := by
  refine ⟨rfl, ?_⟩
  rw [StochKitSolver.simulate] at h
  split at h
  · cases h
  · rename_i cm hc
    split at h
    · cases h
    · rename_i trs hsim
      cases h
      refine ⟨cm, trs, hc, hsim, rfl, ?_⟩
      intro arr harr row hrow
      obtain ⟨tr, htr, rfl⟩ := List.mem_map.mp harr
      rw [toArray] at hrow
      obtain ⟨smp, hsmp, rfl⟩ := List.mem_map.mp hrow
      have hslen : smp.2.length = model.species.length := by
        rw [simulate] at hsim
        split at hsim
        · cases hsim
        · split at hsim
          · cases hsim
          · rename_i cm2 hcm2
            have hcmeq : cm = cm2 := by
              simpa using hcm2
            subst hcmeq
            obtain ⟨i, -, hrun⟩ :=
              simTrajs_mem cm t seed (List.range n) trs hsim tr htr
            rw [runTrajectory] at hrun
            have hini : (initState cm).length = model.species.length := by
              rw [initState, List.length_map]
              rw [(compile_ok_fields hc).2, List.length_map]
            refine runLoop_pops_length cm t model.species.length maxEvents
              0 (initState cm) (deriveSeed seed i)
              [((0 : ℚ), initState cm)] tr ?_ hini hrun smp hsmp
            intro s2 hs2
            rw [List.mem_singleton] at hs2
            subst hs2
            exact hini
      exact ⟨by rw [toRow, List.length_cons, List.length_map, hslen], smp,
        rfl⟩

set_option allowUnsafeReducibility true in
attribute [local semireducible] Rat.mul Rat.add Rat.sub Rat.inv in
/-- Witness for C10: the first row of the first trajectory array of the
decay model, run through the solver adapter with the default arguments,
has width 1 + #species. -/
theorem claim_C10_solver_arrays_witness :
    ((((StochKitSolver.simulate decayModel 20 1 0).toOption.getD
      []).getD 0 []).getD 0 []).length
      = decayModel.species.length + 1 := by
  have h := claim_C10_solver_arrays decayModel 20 1 0
    ((StochKitSolver.simulate decayModel 20 1 0).toOption.getD [])
    (by rfl)
  obtain ⟨-, cm, trs, -, -, -, hprop⟩ := h
  exact (hprop
    (((StochKitSolver.simulate decayModel 20 1 0).toOption.getD
      []).getD 0 []) (by decide)
    ((((StochKitSolver.simulate decayModel 20 1 0).toOption.getD
      []).getD 0 []).getD 0 []) (by decide)).1

end GillesPy

namespace GillesPy

/-! ## Compile-time error lemmas (claim C7) -/

theorem eq_of_name_eq_of_nodup :
    ∀ {l : List Parameter}, (l.map Parameter.name).Nodup →
    ∀ {p q : Parameter}, p ∈ l → q ∈ l → p.name = q.name → p = q := by
  intro l
  induction l with
  | nil => intro _ p q hp; cases hp
  | cons a tl ih =>
    intro hnd p q hp hq he
    rw [List.map_cons, List.nodup_cons] at hnd
    rcases List.mem_cons.mp hp with rfl | hp2
    · rcases List.mem_cons.mp hq with rfl | hq2
      · rfl
      · exact absurd (he ▸ List.mem_map_of_mem Parameter.name hq2) hnd.1
    · rcases List.mem_cons.mp hq with rfl | hq2
      · exact absurd (he ▸ List.mem_map_of_mem Parameter.name hp2) hnd.1
      · exact ih hnd.2 hp2 hq2 he

theorem firstUnknownRef_some (names : List String) :
    ∀ ps : List Parameter,
    (∃ p ∈ ps, ∃ x ∈ p.expression.vars, x ∉ names) →
    ∃ y, firstUnknownRef names ps = some y ∧ y ∉ names := by
  intro ps
  induction ps with
  | nil => intro h; obtain ⟨p, hp, -⟩ := h; cases hp
  | cons p ps ih =>
    intro h
    rw [firstUnknownRef]
    cases hf : p.expression.vars.find? (fun x => !names.contains x) with
    | some y =>
      refine ⟨y, rfl, ?_⟩
      have := List.find?_some hf
      simpa using this
    | none =>
      obtain ⟨q, hq, x, hx, hxn⟩ := h
      rcases List.mem_cons.mp hq with rfl | hq2
      · exfalso
        have := List.find?_eq_none.mp hf x hx
        simp at this
        exact hxn this
      · exact ih ⟨q, hq2, x, hx, hxn⟩

theorem firstUnknownRef_none (names : List String) :
    ∀ ps : List Parameter,
    (∀ p ∈ ps, ∀ x ∈ p.expression.vars, x ∈ names) →
    firstUnknownRef names ps = none := by
  intro ps
  induction ps with
  | nil => intro _; rfl
  | cons p ps ih =>
    intro h
    rw [firstUnknownRef]
    cases hf : p.expression.vars.find? (fun x => !names.contains x) with
    | some y =>
      exfalso
      have h1 := List.find?_some hf
      have h2 := List.mem_of_find?_eq_some hf
      simp at h1
      exact h1 (h p (List.mem_cons_self _ _) y h2)
    | none => exact ih (fun q hq => h q (List.mem_cons_of_mem p hq))

theorem compile_error_of_resolveParams {m : Model} {e : CompileError}
    (h : resolveParams m = .error e) : compile m = .error e := by
  rw [compile, h]
  rfl

theorem resolveParams_unresolved {m : Model}
    (h : ∃ p ∈ m.parameters, ∃ x ∈ p.expression.vars, x ∉ paramNames m) :
    ∃ y, resolveParams m = .error (.UnresolvedParameterError y)
      ∧ y ∉ paramNames m := by
  obtain ⟨y, hf, hy⟩ := firstUnknownRef_some (paramNames m) m.parameters h
  refine ⟨y, ?_, hy⟩
  rw [resolveParams, hf]

end GillesPy

namespace GillesPy

theorem readyP_false_of_dep {env : List (String × ℚ)} {p : Parameter}
    {b : String} (hb : b ∈ p.expression.vars)
    (hbe : ∀ q ∈ env, q.1 ≠ b) : readyP env p = false := by
  rw [readyP]
  by_contra h
  rw [Bool.not_eq_false, List.all_eq_true] at h
  have hc := h b hb
  have hmem : b ∈ env.map (fun q => q.1) := by simpa using hc
  obtain ⟨q, hq, hqb⟩ := List.mem_map.mp hmem
  exact hbe q hq hqb

theorem resolveLoop_cycle (m : Model) (S : List String) (hS : S ≠ [])
    (hdep : ∀ a ∈ S, ∃ b ∈ S, dependsOn m a b)
    (hnd : (m.parameters.map Parameter.name).Nodup) :
    ∀ (fuel : ℕ) (env : List (String × ℚ)) (pending : List Parameter),
    pending.Sublist m.parameters →
    (∀ a ∈ S, ∃ p ∈ pending, p.name = a) →
    (∀ a ∈ S, ∀ q ∈ env, q.1 ≠ a) →
    resolveLoop fuel env pending = .error .CyclicParameterError := by
  intro fuel
  induction fuel with
  | zero =>
    intro env pending hsub hin henv
    obtain ⟨a, ha⟩ := List.exists_mem_of_ne_nil S hS
    obtain ⟨p, hp, -⟩ := hin a ha
    cases pending with
    | nil => cases hp
    | cons p0 ps => rfl
  | succ n ih =>
    intro env pending hsub hin henv
    obtain ⟨a0, ha0⟩ := List.exists_mem_of_ne_nil S hS
    obtain ⟨p0m, hp0m, -⟩ := hin a0 ha0
    cases pending with
    | nil => cases hp0m
    | cons p0 ps =>
      have hnotready : ∀ a ∈ S, ∀ p ∈ p0 :: ps, p.name = a →
          readyP env p = false := by
        intro a ha p hp hname
        obtain ⟨b, hbS, hdepab⟩ := hdep a ha
        obtain ⟨q, hqm, hqname, hbvars⟩ := hdepab
        have hpm : p ∈ m.parameters := hsub.subset hp
        have hqp : q = p :=
          eq_of_name_eq_of_nodup hnd hqm hpm (by rw [hqname, hname])
        subst hqp
        exact readyP_false_of_dep hbvars (henv b hbS)
      simp only [resolveLoop]
      by_cases hempty : ((p0 :: ps).filter (readyP env)).isEmpty = true
      · rw [if_pos hempty]
      · rw [if_neg hempty]
        apply ih
        · exact (List.filter_sublist _).trans hsub
        · intro a ha
          obtain ⟨p, hp, hname⟩ := hin a ha
          refine ⟨p, ?_, hname⟩
          rw [List.mem_filter]
          refine ⟨hp, ?_⟩
          rw [hnotready a ha p hp hname]
          rfl
        · intro a ha q hq
          rcases List.mem_append.mp hq with hq1 | hq2
          · exact henv a ha q hq1
          · obtain ⟨r, hr, rfl⟩ := List.mem_map.mp hq2
            intro hcontra
            have hrp : r ∈ p0 :: ps := List.mem_of_mem_filter hr
            have hfalse := hnotready a ha r hrp hcontra
            have hready : readyP env r = true := List.of_mem_filter hr
            rw [hfalse] at hready
            cases hready

theorem resolveParams_cyclic {m : Model}
    (hnd : (paramNames m).Nodup)
    (hknown : ∀ p ∈ m.parameters, ∀ x ∈ p.expression.vars,
      x ∈ paramNames m)
    (hcyc : HasCycle m) :
    resolveParams m = .error .CyclicParameterError := by
  obtain ⟨S, hS, hdep⟩ := hcyc
  rw [resolveParams, firstUnknownRef_none (paramNames m) m.parameters hknown]
  refine resolveLoop_cycle m S hS hdep hnd m.parameters.length []
    m.parameters (List.Sublist.refl _) ?_ ?_
  · intro a ha
    obtain ⟨b, -, q, hqm, hqname, -⟩ := hdep a ha
    exact ⟨q, hqm, hqname⟩
  · intro a _ q hq
    cases hq

end GillesPy

namespace GillesPy

theorem compileStoich_total (m : Model) :
    ∀ l : List (String × ℕ),
    (∃ x, compileStoich m l = .error (.UnknownSymbolError x)) ∨
      (∃ l2, compileStoich m l = .ok l2) := by
  intro l
  induction l with
  | nil => exact Or.inr ⟨[], rfl⟩
  | cons pr rest ih =>
    obtain ⟨x, n⟩ := pr
    rw [compileStoich]
    cases hsi : speciesIndex m x with
    | none => exact Or.inl ⟨x, rfl⟩
    | some i =>
      rcases ih with ⟨y, hy⟩ | ⟨l2, hl2⟩
      · rw [hy]
        exact Or.inl ⟨y, rfl⟩
      · rw [hl2]
        exact Or.inr ⟨(i, n) :: l2, rfl⟩

theorem compileStoich_unknown (m : Model) :
    ∀ l : List (String × ℕ),
    (∃ pr ∈ l, speciesIndex m pr.1 = none) →
    ∃ x, compileStoich m l = .error (.UnknownSymbolError x) := by
  intro l
  induction l with
  | nil => intro h; obtain ⟨pr, hpr, -⟩ := h; cases hpr
  | cons pr rest ih =>
    intro h
    obtain ⟨x, n⟩ := pr
    rw [compileStoich]
    cases hsi : speciesIndex m x with
    | none => exact ⟨x, rfl⟩
    | some i =>
      obtain ⟨pr2, hpr2, hnone⟩ := h
      rcases List.mem_cons.mp hpr2 with rfl | hmem
      · rw [hsi] at hnone
        cases hnone
      · obtain ⟨y, hy⟩ := ih ⟨pr2, hmem, hnone⟩
        rw [hy]
        exact ⟨y, rfl⟩

theorem compileExpr_total (m : Model) (env : List (String × ℚ)) :
    ∀ e : PExpr,
    (∃ x, compileExpr m env e = .error (.UnknownSymbolError x)) ∨
      (∃ c, compileExpr m env e = .ok c) := by
  intro e
  induction e with
  | num q => exact Or.inr ⟨.num q, rfl⟩
  | var x =>
    rw [compileExpr]
    cases hsi : speciesIndex m x with
    | some i => exact Or.inr ⟨.pop i, rfl⟩
    | none =>
      cases hf : env.find? (fun p => p.1 == x) with
      | some p => exact Or.inr ⟨.num p.2, rfl⟩
      | none => exact Or.inl ⟨x, rfl⟩
  | add a b iha ihb =>
    rw [compileExpr]
    rcases iha with ⟨x, hx⟩ | ⟨ca, hca⟩
    · rw [hx]
      exact Or.inl ⟨x, rfl⟩
    · rw [hca]
      rcases ihb with ⟨y, hy⟩ | ⟨cb, hcb⟩
      · rw [hy]
        exact Or.inl ⟨y, rfl⟩
      · rw [hcb]
        exact Or.inr ⟨.add ca cb, rfl⟩
  | sub a b iha ihb =>
    rw [compileExpr]
    rcases iha with ⟨x, hx⟩ | ⟨ca, hca⟩
    · rw [hx]
      exact Or.inl ⟨x, rfl⟩
    · rw [hca]
      rcases ihb with ⟨y, hy⟩ | ⟨cb, hcb⟩
      · rw [hy]
        exact Or.inl ⟨y, rfl⟩
      · rw [hcb]
        exact Or.inr ⟨.sub ca cb, rfl⟩
  | mul a b iha ihb =>
    rw [compileExpr]
    rcases iha with ⟨x, hx⟩ | ⟨ca, hca⟩
    · rw [hx]
      exact Or.inl ⟨x, rfl⟩
    · rw [hca]
      rcases ihb with ⟨y, hy⟩ | ⟨cb, hcb⟩
      · rw [hy]
        exact Or.inl ⟨y, rfl⟩
      · rw [hcb]
        exact Or.inr ⟨.mul ca cb, rfl⟩
  | div a b iha ihb =>
    rw [compileExpr]
    rcases iha with ⟨x, hx⟩ | ⟨ca, hca⟩
    · rw [hx]
      exact Or.inl ⟨x, rfl⟩
    · rw [hca]
      rcases ihb with ⟨y, hy⟩ | ⟨cb, hcb⟩
      · rw [hy]
        exact Or.inl ⟨y, rfl⟩
      · rw [hcb]
        exact Or.inr ⟨.div ca cb, rfl⟩

theorem compileExpr_unknown (m : Model) (env : List (String × ℚ)) :
    ∀ e : PExpr,
    (∃ x ∈ e.vars, speciesIndex m x = none ∧
      env.find? (fun p => p.1 == x) = none) →
    ∃ x, compileExpr m env e = .error (.UnknownSymbolError x) := by
  intro e
  induction e with
  | num q => intro h; obtain ⟨x, hx, -⟩ := h; cases hx
  | var y =>
    intro h
    obtain ⟨x, hx, hsi, hf⟩ := h
    rw [PExpr.vars, List.mem_singleton] at hx
    subst hx
    rw [compileExpr, hsi, hf]
    exact ⟨x, rfl⟩
  | add a b iha ihb =>
    intro h
    obtain ⟨x, hx, hsi, hf⟩ := h
    rw [PExpr.vars] at hx
    rw [compileExpr]
    rcases List.mem_append.mp hx with hxa | hxb
    · obtain ⟨y, hy⟩ := iha ⟨x, hxa, hsi, hf⟩
      rw [hy]
      exact ⟨y, rfl⟩
    · rcases compileExpr_total m env a with ⟨y, hy⟩ | ⟨ca, hca⟩
      · rw [hy]
        exact ⟨y, rfl⟩
      · rw [hca]
        obtain ⟨y, hy⟩ := ihb ⟨x, hxb, hsi, hf⟩
        rw [hy]
        exact ⟨y, rfl⟩
  | sub a b iha ihb =>
    intro h
    obtain ⟨x, hx, hsi, hf⟩ := h
    rw [PExpr.vars] at hx
    rw [compileExpr]
    rcases List.mem_append.mp hx with hxa | hxb
    · obtain ⟨y, hy⟩ := iha ⟨x, hxa, hsi, hf⟩
      rw [hy]
      exact ⟨y, rfl⟩
    · rcases compileExpr_total m env a with ⟨y, hy⟩ | ⟨ca, hca⟩
      · rw [hy]
        exact ⟨y, rfl⟩
      · rw [hca]
        obtain ⟨y, hy⟩ := ihb ⟨x, hxb, hsi, hf⟩
        rw [hy]
        exact ⟨y, rfl⟩
  | mul a b iha ihb =>
    intro h
    obtain ⟨x, hx, hsi, hf⟩ := h
    rw [PExpr.vars] at hx
    rw [compileExpr]
    rcases List.mem_append.mp hx with hxa | hxb
    · obtain ⟨y, hy⟩ := iha ⟨x, hxa, hsi, hf⟩
      rw [hy]
      exact ⟨y, rfl⟩
    · rcases compileExpr_total m env a with ⟨y, hy⟩ | ⟨ca, hca⟩
      · rw [hy]
        exact ⟨y, rfl⟩
      · rw [hca]
        obtain ⟨y, hy⟩ := ihb ⟨x, hxb, hsi, hf⟩
        rw [hy]
        exact ⟨y, rfl⟩
  | div a b iha ihb =>
    intro h
    obtain ⟨x, hx, hsi, hf⟩ := h
    rw [PExpr.vars] at hx
    rw [compileExpr]
    rcases List.mem_append.mp hx with hxa | hxb
    · obtain ⟨y, hy⟩ := iha ⟨x, hxa, hsi, hf⟩
      rw [hy]
      exact ⟨y, rfl⟩
    · rcases compileExpr_total m env a with ⟨y, hy⟩ | ⟨ca, hca⟩
      · rw [hy]
        exact ⟨y, rfl⟩
      · rw [hca]
        obtain ⟨y, hy⟩ := ihb ⟨x, hxb, hsi, hf⟩
        rw [hy]
        exact ⟨y, rfl⟩

end GillesPy

namespace GillesPy

theorem compileReaction_total (m : Model) (env : List (String × ℚ))
    (r : Reaction) (hwf : WellFormed r) :
    (∃ x, compileReaction m env r = .error (.UnknownSymbolError x)) ∨
      (∃ cr, compileReaction m env r = .ok cr) := by
  obtain ⟨nm, reacts, prods, rate, pf⟩ := r
  rcases hwf with ⟨hrate, hpf⟩ | ⟨hrate, hpf⟩ <;> simp only at hrate hpf
  · obtain ⟨k, hk⟩ := Option.isSome_iff_exists.mp hrate
    subst hpf
    subst hk
    rcases compileStoich_total m reacts with ⟨x, hx⟩ | ⟨l1, h1⟩
    · simp only [compileReaction, bind, Except.bind, hx]
      exact Or.inl ⟨x, rfl⟩
    · rcases compileStoich_total m prods with ⟨y, hy⟩ | ⟨l2, h2⟩
      · simp only [compileReaction, bind, Except.bind, h1, hy]
        exact Or.inl ⟨y, rfl⟩
      · cases hf : env.find? (fun p => p.1 == k) with
        | some p =>
          simp only [compileReaction, bind, Except.bind, h1, h2, hf]
          exact Or.inr ⟨_, rfl⟩
        | none =>
          simp only [compileReaction, bind, Except.bind, h1, h2, hf]
          exact Or.inl ⟨k, rfl⟩
  · obtain ⟨e, he⟩ := Option.isSome_iff_exists.mp hpf
    subst hrate
    subst he
    rcases compileStoich_total m reacts with ⟨x, hx⟩ | ⟨l1, h1⟩
    · simp only [compileReaction, bind, Except.bind, hx]
      exact Or.inl ⟨x, rfl⟩
    · rcases compileStoich_total m prods with ⟨y, hy⟩ | ⟨l2, h2⟩
      · simp only [compileReaction, bind, Except.bind, h1, hy]
        exact Or.inl ⟨y, rfl⟩
      · rcases compileExpr_total m env e with ⟨z, hz⟩ | ⟨c, hc⟩
        · simp only [compileReaction, bind, Except.bind, h1, h2, hz]
          exact Or.inl ⟨z, rfl⟩
        · simp only [compileReaction, bind, Except.bind, h1, h2, hc]
          exact Or.inr ⟨_, rfl⟩

end GillesPy

namespace GillesPy

theorem compileReaction_unknown (m : Model) (env : List (String × ℚ))
    (r : Reaction) (hwf : WellFormed r) (hunk : UnknownSymbolIn m env r) :
    ∃ x, compileReaction m env r = .error (.UnknownSymbolError x) := by
  obtain ⟨nm, reacts, prods, rate, pf⟩ := r
  rcases hunk with hsp | hrk | hpe
  · simp only at hsp
    rcases hsp with ⟨pr, hpr, hnone⟩
    rcases List.mem_append.mp hpr with hmem | hmem
    · obtain ⟨x, hx⟩ := compileStoich_unknown m reacts ⟨pr, hmem, hnone⟩
      simp only [compileReaction, bind, Except.bind, hx]
      exact ⟨x, rfl⟩
    · rcases compileStoich_total m reacts with ⟨x, hx⟩ | ⟨l1, h1⟩
      · simp only [compileReaction, bind, Except.bind, hx]
        exact ⟨x, rfl⟩
      · obtain ⟨y, hy⟩ := compileStoich_unknown m prods ⟨pr, hmem, hnone⟩
        simp only [compileReaction, bind, Except.bind, h1, hy]
        exact ⟨y, rfl⟩
  · obtain ⟨k, hk, hf⟩ := hrk
    simp only [Option.mem_def] at hk
    subst hk
    have hpf : pf = none := by
      rcases hwf with ⟨-, hpf⟩ | ⟨hrate, -⟩
      · simpa using hpf
      · simp at hrate
    subst hpf
    rcases compileStoich_total m reacts with ⟨x, hx⟩ | ⟨l1, h1⟩
    · simp only [compileReaction, bind, Except.bind, hx]
      exact ⟨x, rfl⟩
    · rcases compileStoich_total m prods with ⟨y, hy⟩ | ⟨l2, h2⟩
      · simp only [compileReaction, bind, Except.bind, h1, hy]
        exact ⟨y, rfl⟩
      · simp only [compileReaction, bind, Except.bind, h1, h2, hf]
        exact ⟨k, rfl⟩
  · obtain ⟨e, he, hvar⟩ := hpe
    simp only [Option.mem_def] at he
    subst he
    have hrate : rate = none := by
      rcases hwf with ⟨-, hpf⟩ | ⟨hrate, -⟩
      · simp at hpf
      · simpa using hrate
    subst hrate
    rcases compileStoich_total m reacts with ⟨x, hx⟩ | ⟨l1, h1⟩
    · simp only [compileReaction, bind, Except.bind, hx]
      exact ⟨x, rfl⟩
    · rcases compileStoich_total m prods with ⟨y, hy⟩ | ⟨l2, h2⟩
      · simp only [compileReaction, bind, Except.bind, h1, hy]
        exact ⟨y, rfl⟩
      · obtain ⟨z, hz⟩ := compileExpr_unknown m env e hvar
        simp only [compileReaction, bind, Except.bind, h1, h2, hz]
        exact ⟨z, rfl⟩

theorem compileReactions_unknown (m : Model) (env : List (String × ℚ)) :
    ∀ rs : List Reaction, (∀ r ∈ rs, WellFormed r) →
    (∃ r ∈ rs, UnknownSymbolIn m env r) →
    ∃ x, compileReactions m env rs = .error (.UnknownSymbolError x) := by
  intro rs
  induction rs with
  | nil => intro _ h; obtain ⟨r, hr, -⟩ := h; cases hr
  | cons r rs ih =>
    intro hwf h
    rcases compileReaction_total m env r
        (hwf r (List.mem_cons_self _ _)) with ⟨x, hx⟩ | ⟨cr, hcr⟩
    · simp only [compileReactions, bind, Except.bind, hx]
      exact ⟨x, rfl⟩
    · obtain ⟨r2, hr2, hunk⟩ := h
      rcases List.mem_cons.mp hr2 with rfl | hmem
      · obtain ⟨x, hx⟩ := compileReaction_unknown m env r2
          (hwf r2 (List.mem_cons_self _ _)) hunk
        simp only [compileReactions, bind, Except.bind, hx]
        exact ⟨x, rfl⟩
      · obtain ⟨y, hy⟩ := ih (fun q hq => hwf q (List.mem_cons_of_mem r hq))
          ⟨r2, hmem, hunk⟩
        simp only [compileReactions, bind, Except.bind, hcr, hy]
        exact ⟨y, rfl⟩

end GillesPy

namespace GillesPy

/-- Claim C7: `compile()` on a model containing a parameter expression
that references an unknown name fails with `UnresolvedParameterError`, on
a parameter reference cycle fails with `CyclicParameterError`, and on a
reaction naming a symbol absent from the model fails with
`UnknownSymbolError`; a failing `compile()` leaves the model's compiled
state unchanged (no partial mutation). -/
theorem claim_C7_compile_errors (m : Model) :
    ((∃ p ∈ m.parameters, ∃ x ∈ p.expression.vars, x ∉ paramNames m) →
      ∃ x, compile m = .error (.UnresolvedParameterError x)
        ∧ x ∉ paramNames m)
    ∧ ((paramNames m).Nodup →
      (∀ p ∈ m.parameters, ∀ x ∈ p.expression.vars, x ∈ paramNames m) →
      HasCycle m →
      compile m = .error .CyclicParameterError)
    ∧ (∀ env, resolveParams m = .ok env →
      (∀ r ∈ m.reactions, WellFormed r) →
      (∃ r ∈ m.reactions, UnknownSymbolIn m env r) →
      ∃ x, compile m = .error (.UnknownSymbolError x))
    ∧ (∀ e, compile m = .error e → compileUpdate m = m) := by
  refine ⟨?_, ?_, ?_, ?_⟩
  · intro h
    obtain ⟨y, hy, hyn⟩ := resolveParams_unresolved h
    exact ⟨y, compile_error_of_resolveParams hy, hyn⟩
  · intro hnd hknown hcyc
    exact compile_error_of_resolveParams
      (resolveParams_cyclic hnd hknown hcyc)
  · intro env henv hwf hunk
    obtain ⟨x, hx⟩ := compileReactions_unknown m env m.reactions hwf hunk
    simp only [compile, bind, Except.bind, henv, hx]
    exact ⟨x, rfl⟩
  · intro e he
    rw [compileUpdate, he]

/-- Witness for C7: concrete failing models for each error, and the
no-mutation property on the first. -/
theorem claim_C7_compile_errors_witness :
    (∃ x, compile unresolvedModel = .error (.UnresolvedParameterError x)
      ∧ x ∉ paramNames unresolvedModel)
    ∧ compile cyclicModel = .error .CyclicParameterError
    ∧ (∃ x, compile unknownSymModel = .error (.UnknownSymbolError x))
    ∧ compileUpdate unresolvedModel = unresolvedModel := by
  refine ⟨(claim_C7_compile_errors unresolvedModel).1 ?_,
    (claim_C7_compile_errors cyclicModel).2.1 (by decide) (by decide) ?_,
    (claim_C7_compile_errors unknownSymModel).2.2.1
      ((resolveParams unknownSymModel).toOption.getD []) (by rfl)
      (by decide) ?_,
    (claim_C7_compile_errors unresolvedModel).2.2.2
      (.UnresolvedParameterError "b") (by rfl)⟩
  · exact ⟨Parameter.mk "a" (.var "b"), by decide, "b", by decide,
      by decide⟩
  · exact ⟨["a", "b"], by decide, by decide⟩
  · exact ⟨Reaction.mk "r" [("Y", 1)] [] (some "k") none, by decide,
      Or.inl ⟨("Y", 1), by decide, by rfl⟩⟩

end GillesPy
